import Mathlib

/-!
Verification of the harvest/merge/migration core of `arxiv-reader`.

This file gives a shallow embedding of the data model and the operations of
`src/article.rs`, `src/oai.rs` and `src/db.rs`, and proves or refutes the
frozen claims about them.

Modelling conventions:
* Rust `String` values become Lean `String`; identifiers are additionally
  manipulated as `List Char` (`String.data`).  All strings the program
  compares or orders (dates `YYYY-MM-DD`, identifiers) are ASCII, where
  Rust's byte-wise order and Lean's character-wise order agree, and where a
  byte length equals the character length.
* The SQLite tables become association lists: the `article` table (primary
  key `id`) a `List ArticleMetadata`, the `set_` table (primary key `name`)
  a `List ContinuationRow`.  An SQL `UPDATE ... WHERE name = ?` becomes a
  `List.map` touching the rows with that name.
* Fallible Rust code (`anyhow::Result`) becomes `Except String`.
* A `rusqlite` transaction commits explicitly; a closure returning an error
  drops the transaction, rolling it back.  `harvestStep` models this by
  returning the unchanged durable store on every path that errors before a
  commit, and the committed store on the one path (bad resumption token)
  that commits before surfacing an error.
-/

set_option autoImplicit false

namespace ArxivReader

/-! ## Identifiers (`src/article.rs`, `ArxivId`) -/

/-- Character class of `valid_first_chars` in `ArxivId::from_str`:
ASCII digit or ASCII lowercase letter. -/
def validFirstChar (c : Char) : Bool :=
  c.isDigit || c.isLower

/-- Character class of `valid_chars` in `ArxivId::from_str`: ASCII digit,
dot, ASCII lowercase letter, slash or hyphen. -/
def validChar (c : Char) : Bool :=
  c.isDigit || c == '.' || c.isLower || c == '/' || c == '-'

/-- Embedding of `ArxivId::from_str`: the string parses iff it is shorter
than 20 characters, starts with a valid first character and consists of
valid characters only.  (Rust checks the byte length; valid characters are
ASCII, and a string with a multi-byte character is rejected by
`valid_chars` anyway, so the byte- and character-length conditions accept
the same strings.) -/
def ArxivId.from_str (s : String) : Option String :=
  if s.data.length < 20
      && (match s.data.head? with
          | some c => validFirstChar c
          | none => false)
      && s.data.all validChar then
    some s
  else
    none

/-- Embedding of `ArxivId::dir_name`: replace every slash by an underscore. -/
def ArxivId.dir_name (s : String) : String :=
  ⟨s.data.map fun c => if c = '/' then '_' else c⟩

/-- Embedding of `ArxivId::from_dir_name`: replace every underscore by a
slash, then parse. -/
def ArxivId.from_dir_name (s : String) : Option String :=
  ArxivId.from_str ⟨s.data.map fun c => if c = '_' then '/' else c⟩

/-! ## String comparison

The program compares and takes minima of date strings (`YYYY-MM-DD`) and
orders them with Rust's lexicographic byte order.  All compared strings
are ASCII, where that order is the character-wise lexicographic order
embedded here. -/

/-- Lexicographic comparison of character lists (Rust `str` `<` on ASCII
strings). -/
def strLtb : List Char → List Char → Bool
  | [], [] => false
  | [], _ :: _ => true
  | _ :: _, [] => false
  | a :: as, b :: bs =>
      if a < b then true else if b < a then false else strLtb as bs

/-- Rust `<` on strings. -/
def strLt (a b : String) : Bool :=
  strLtb a.data b.data

/-- Rust `<=` on strings. -/
def strLe (a b : String) : Bool :=
  !strLt b a

/-- Rust `std::cmp::min` on strings: the second argument when it is
strictly smaller, the first otherwise. -/
def strMin (a b : String) : String :=
  if strLt b a then b else a

/-! ## Article metadata (`src/article.rs`) -/

/-- Embedding of `article::Version`.  The submission timestamp is kept as
its string form: the source parses it with `DateTime::parse_from_rfc2822`
and only ever carries the value along, and no claim concerns its parsed
content, so the embedding treats the parse as the identity on the dates
that occur. -/
structure Version where
  number : Nat
  date : String
  size : String
  source_type : Option String
  first_encounter : String
deriving DecidableEq, Repr

/-- Embedding of `article::ArticleMetadata`.  The identifier is the
normalized string accepted by `ArxivId.from_str`. -/
structure ArticleMetadata where
  id : String
  submitter : String
  versions : List Version
  title : String
  authors : String
  categories : List String
  comments : Option String
  proxy : Option String
  report_no : Option String
  acm_classes : Option String
  msc_classes : Option String
  journal_ref : Option String
  doi : Option String
  license : Option String
  abstract_ : String
  last_change : Option String
  sets : Option (List String)
deriving DecidableEq, Repr

/-- Embedding of `ArticleMetadata::validate`: at least one version, at
least one category, and for every index `i` in `0 .. versions.len() - 1`
(the last version excluded, as in the source loop) the version at index
`i` carries number `i + 1`. -/
def ArticleMetadata.validate (a : ArticleMetadata) : Except String Unit :=
  if a.versions.isEmpty then
    .error "article has no versions"
  else if a.categories.isEmpty then
    .error "article has no categories"
  else if (List.range (a.versions.length - 1)).all
      (fun i => match a.versions.get? i with
        | some v => v.number == i + 1
        | none => true) then
    .ok ()
  else
    .error "unexpected version number"

/-! ## Continuation ledger (`src/oai.rs`, `Continuation`) -/

/-- Embedding of `oai::ResumptionData`. -/
structure ResumptionData where
  request_number : Nat
  resumption_request : String
  response_date : Option String
deriving DecidableEq, Repr

/-- One row of the `set_` table: name (primary key), `date` column
(the per-partition `last_update`), `resumption_data` column. -/
structure ContinuationRow where
  name : String
  date : Option String
  resumption_data : Option ResumptionData
deriving DecidableEq, Repr

/-- The in-memory continuation of one set, as read by
`Continuation::read`. -/
structure Continuation where
  last_update : Option String
  resumption_data : Option ResumptionData
deriving DecidableEq, Repr

/-- Embedding of `Continuation::read`: the row with the given name, or an
empty continuation when the set has no row. -/
def readContinuation (ledger : List ContinuationRow) (set : String) : Continuation :=
  match ledger.find? (fun row => row.name == set) with
  | some row => { last_update := row.date, resumption_data := row.resumption_data }
  | none => { last_update := none, resumption_data := none }

/-- Embedding of `Continuation::reset_last_update`.  The source iterates
over all rows and, for every row whose stored date `prev` satisfies
`date < prev` (this is the comparison the code performs, the reverse of
the one its doc comment states), sets the row's date to `date` and clears
its resumption data. -/
def resetLastUpdate (ledger : List ContinuationRow) (date : String) : List ContinuationRow :=
  ledger.map fun row =>
    match row.date with
    | some prev =>
        if strLt date prev then
          { row with date := some date, resumption_data := none }
        else
          row
    | none => row

/-- Embedding of `Continuation::update_last_update`: first
`reset_last_update`, then unconditionally set the named row's date and
clear its resumption data. -/
def updateLastUpdate (ledger : List ContinuationRow) (set : String)
    (last_update : String) : List ContinuationRow :=
  (resetLastUpdate ledger last_update).map fun row =>
    if row.name == set then
      { row with date := some last_update, resumption_data := none }
    else
      row

/-- Embedding of `Continuation::update_resumption_data`. -/
def updateResumptionData (ledger : List ContinuationRow) (set : String)
    (data : ResumptionData) : List ContinuationRow :=
  ledger.map fun row =>
    if row.name == set then { row with resumption_data := some data } else row

/-- Embedding of `Continuation::clear_resumption_data`. -/
def clearResumptionData (ledger : List ContinuationRow) (set : String) :
    List ContinuationRow :=
  ledger.map fun row =>
    if row.name == set then { row with resumption_data := none } else row

/-! ## Decoded OAI response (`src/oai.rs`, deserialization structs)

The XML decoding itself (`quick_xml::de::from_str`) is not embedded; the
harvester model below receives either the already-typed decoding result or
an explicit unparsable marker, together with the raw response bytes. -/

/-- Embedding of the decoded `oai::Version` element. -/
structure OaiVersion where
  version : String
  date : String
  size : String
  source_type : Option String
deriving DecidableEq, Repr

/-- Embedding of the decoded `oai::Header` element. -/
structure OaiHeader where
  datestamp : String
  sets : List String
deriving DecidableEq, Repr

/-- Embedding of the decoded `oai::ArXivRaw` element. -/
structure OaiArticle where
  id : String
  submitter : String
  versions : List OaiVersion
  title : String
  authors : String
  categories : String
  comments : Option String
  proxy : Option String
  report_no : Option String
  acm_classes : Option String
  msc_classes : Option String
  journal_ref : Option String
  doi : Option String
  license : Option String
  abstract_ : String
deriving DecidableEq, Repr

/-- Embedding of the decoded `oai::Set` record element. -/
structure OaiRecord where
  header : OaiHeader
  arxiv_raw : OaiArticle
deriving DecidableEq, Repr

/-- Embedding of the decoded `oai::ResumptionToken` element. -/
structure OaiResumptionToken where
  expiration_date : Option String
  value : Option String
deriving DecidableEq, Repr

/-- Embedding of the decoded `oai::OaiError` element. -/
structure OaiErrorElem where
  code : String
  value : Option String
deriving DecidableEq, Repr

/-- Embedding of the decoded `oai::ListRecords` element. -/
structure OaiListRecords where
  records : List OaiRecord
  resumption_token : Option OaiResumptionToken
deriving DecidableEq, Repr

/-- Embedding of the decoded `oai::OaipmhListRecords` document. -/
structure OaipmhListRecords where
  response_date : String
  errors : List OaiErrorElem
  list_records : Option OaiListRecords
deriving DecidableEq, Repr

/-! ## Small string helpers used by the decoder -/

/-- Digits of a decimal number: `none` unless the list is non-empty and
all characters are ASCII digits. -/
def parseNatDigits : List Char → Option Nat
  | [] => none
  | [c] => if c.isDigit then some (c.toNat - 48) else none
  | c :: rest =>
      if c.isDigit then
        (parseNatDigits rest).map fun n => (c.toNat - 48) * 10 ^ rest.length + n
      else
        none

/-- Embedding of Rust `str::parse::<u32>`: an optional leading plus sign,
then decimal digits, with the value bounded by `2 ^ 32`. -/
def parseU32 (s : List Char) : Option Nat :=
  (match s with
    | '+' :: rest => parseNatDigits rest
    | _ => parseNatDigits s).filter fun n => n < 2 ^ 32

/-- Embedding of the version-number decoding in `download_changes`:
`strip_prefix('v')` followed by `parse::<u32>()`; `none` is the fatal
"invalid version number" case. -/
def parseVersionNumber (s : String) : Option Nat :=
  match s.data with
  | 'v' :: rest => parseU32 rest
  | _ => none

/-- Embedding of Rust `str::split(' ')` (used for the category string):
splits at every space, keeping empty pieces. -/
def splitSpacesAux : List Char → List Char → List String
  | [], acc => [⟨acc.reverse⟩]
  | c :: rest, acc =>
      if c = ' ' then ⟨acc.reverse⟩ :: splitSpacesAux rest []
      else splitSpacesAux rest (c :: acc)

/-- Split a string at every space, keeping empty pieces. -/
def splitSpaces (s : String) : List String :=
  splitSpacesAux s.data []

/-- Embedding of `split_at_checked(10)` applied to the response date: the
first ten characters, or `none` when the string is shorter.  (Rust also
demands byte index 10 to be a character boundary; the response dates in
question are ASCII.) -/
def splitAt10 (s : String) : Option String :=
  if s.data.length < 10 then none else some ⟨s.data.take 10⟩

/-! ## Record merge engine (`download_changes`, the per-record loop) -/

/-- The per-version body of the merge loop in `download_changes`: decode
the version number, and compute `first_encounter` as the minimum of the
old value at the same index and the response date `d`, or `d` when the
index is new.  The old list is peeled in lockstep, so its head is the old
version at the current index. -/
def mergeVersionsLoop (d : String) : List Version → List OaiVersion →
    Except String (List Version)
  | _, [] => .ok []
  | oldVs, v :: rest =>
      match parseVersionNumber v.version with
      | none => .error "invalid version number"
      | some number =>
          let first_encounter :=
            match oldVs.head? with
            | some old_version => strMin old_version.first_encounter d
            | none => d
          match mergeVersionsLoop d oldVs.tail rest with
          | .error e => .error e
          | .ok tailVs =>
              .ok ({ number := number, date := v.date, size := v.size,
                     source_type := v.source_type,
                     first_encounter := first_encounter } :: tailVs)

/-- Embedding of the version merge of `download_changes`: fail when the
number of versions would decrease, else merge index by index. -/
def mergeVersions (oldVersions : Option (List Version))
    (newVersions : List OaiVersion) (d : String) : Except String (List Version) :=
  match oldVersions with
  | some ovs =>
      if newVersions.length < ovs.length then
        .error "more versions in old metadata update"
      else
        mergeVersionsLoop d ovs newVersions
  | none => mergeVersionsLoop d [] newVersions

/-! ## The store -/

/-- The durable SQLite state the claims concern: the `article` table and
the `set_` table. -/
structure Store where
  articles : List ArticleMetadata
  ledger : List ContinuationRow
deriving DecidableEq, Repr

/-- Embedding of `ArticleMetadata::load_one`: the row with the given id. -/
def lookupArticle (arts : List ArticleMetadata) (id : String) :
    Option ArticleMetadata :=
  arts.find? fun a => a.id == id

/-- Embedding of `ArticleMetadata::write` (`INSERT OR REPLACE`): replace
the row with the same id, or append a new row. -/
def writeArticle (arts : List ArticleMetadata) (a : ArticleMetadata) :
    List ArticleMetadata :=
  if arts.any (fun b => b.id == a.id) then
    arts.map fun b => if b.id == a.id then a else b
  else
    arts ++ [a]

/-- The metadata record built from a decoded record inside the page loop
of `download_changes`: upstream fields verbatim, categories split at
spaces, last-change stamp and partition list from the record header,
versions from the merge. -/
def buildArticle (record : OaiRecord) (id : String)
    (versions : List Version) : ArticleMetadata :=
  { id := id, submitter := record.arxiv_raw.submitter, versions := versions,
    title := record.arxiv_raw.title, authors := record.arxiv_raw.authors,
    categories := splitSpaces record.arxiv_raw.categories,
    comments := record.arxiv_raw.comments, proxy := record.arxiv_raw.proxy,
    report_no := record.arxiv_raw.report_no,
    acm_classes := record.arxiv_raw.acm_classes,
    msc_classes := record.arxiv_raw.msc_classes,
    journal_ref := record.arxiv_raw.journal_ref,
    doi := record.arxiv_raw.doi, license := record.arxiv_raw.license,
    abstract_ := record.arxiv_raw.abstract_,
    last_change := some record.header.datestamp,
    sets := some record.header.sets }

/-- The per-record body of the `for article in records` loop of
`download_changes`: parse the id, load the stored record, merge the
versions, rebuild the metadata from the incoming record
(`buildArticle`), validate, and write. -/
def processRecord (arts : List ArticleMetadata) (record : OaiRecord)
    (d : String) : Except String (List ArticleMetadata) :=
  match ArxivId.from_str record.arxiv_raw.id with
  | none => .error "invalid article id"
  | some id =>
      match mergeVersions ((lookupArticle arts id).map fun a => a.versions)
          record.arxiv_raw.versions d with
      | .error e => .error e
      | .ok versions =>
          match (buildArticle record id versions).validate with
          | .error e => .error e
          | .ok _ => .ok (writeArticle arts (buildArticle record id versions))

/-- The whole record loop of `download_changes`, threading the working
copy of the `article` table. -/
def processRecords (arts : List ArticleMetadata) (records : List OaiRecord)
    (d : String) : Except String (List ArticleMetadata) :=
  match records with
  | [] => .ok arts
  | r :: rest =>
      match processRecord arts r d with
      | .error e => .error e
      | .ok arts2 => processRecords arts2 rest d

/-! ## Calendar dates (`chrono::NaiveDate` as used by the harvester)

The harvester parses a stored `last_update` value with format
`%Y-%m-%d`, subtracts one day (`checked_sub_days(Days::new(1))`) and
formats the result with `%Y-%m-%d` again.  The embedding models the dates
this program stores: zero-padded `YYYY-MM-DD` strings (they are produced
by truncating an OAI response date or by this very formatter).
`checked_sub_days` is `none` only at `NaiveDate::MIN` (year -262143),
unreachable from a four-digit year, so the predecessor is total here. -/

/-- Proleptic Gregorian leap year rule, as in chrono. -/
def isLeapYear (y : Int) : Bool :=
  y % 4 == 0 && (y % 100 != 0 || y % 400 == 0)

/-- Days in a month of the proleptic Gregorian calendar. -/
def daysInMonth (y : Int) (m : Nat) : Nat :=
  if m = 2 then (if isLeapYear y then 29 else 28)
  else if m = 4 || m = 6 || m = 9 || m = 11 then 30
  else 31

/-- A calendar date. -/
structure Date where
  year : Int
  month : Nat
  day : Nat
deriving DecidableEq, Repr

/-- Decimal value of one ASCII digit, or `none`. -/
def digitVal (c : Char) : Option Nat :=
  if c.isDigit then some (c.toNat - 48) else none

/-- Parse a zero-padded `YYYY-MM-DD` string into a valid calendar date. -/
def parseDate (s : String) : Option Date :=
  match s.data with
  | [y1, y2, y3, y4, '-', m1, m2, '-', d1, d2] =>
      match digitVal y1, digitVal y2, digitVal y3, digitVal y4,
          digitVal m1, digitVal m2, digitVal d1, digitVal d2 with
      | some a, some b, some c, some d, some e, some f, some g, some h =>
          let y : Int := Int.ofNat (a * 1000 + b * 100 + c * 10 + d)
          let m := e * 10 + f
          let dy := g * 10 + h
          if 1 ≤ m && m ≤ 12 && 1 ≤ dy && dy ≤ daysInMonth y m then
            some { year := y, month := m, day := dy }
          else
            none
      | _, _, _, _, _, _, _, _ => none
  | _ => none

/-- The previous calendar day (chrono `checked_sub_days(Days::new(1))`,
total on the dates reachable here). -/
def predDate (dt : Date) : Date :=
  if 1 < dt.day then { dt with day := dt.day - 1 }
  else if 1 < dt.month then
    { dt with month := dt.month - 1, day := daysInMonth dt.year (dt.month - 1) }
  else
    { year := dt.year - 1, month := 12, day := 31 }

/-- One ASCII digit character for a value below ten. -/
def digitChar (n : Nat) : Char :=
  Char.ofNat (48 + n)

/-- Zero-padded two-digit rendering. -/
def pad2 (n : Nat) : String :=
  ⟨[digitChar (n / 10 % 10), digitChar (n % 10)]⟩

/-- Zero-padded four-digit rendering. -/
def pad4 (n : Nat) : String :=
  ⟨[digitChar (n / 1000 % 10), digitChar (n / 100 % 10),
    digitChar (n / 10 % 10), digitChar (n % 10)]⟩

/-- chrono `%Y-%m-%d` formatting of a date (negative years, unreachable
from parsed four-digit dates, are signed). -/
def formatDate (dt : Date) : String :=
  (if dt.year < 0 then "-" ++ pad4 (-dt.year).toNat else pad4 dt.year.toNat)
    ++ "-" ++ pad2 dt.month ++ "-" ++ pad2 dt.day

/-! ## Build-or-resume-request (`download_changes`, lines 159-190) -/

/-- Embedding of the request construction in `download_changes`: stored
resumption data is replayed verbatim; otherwise a fresh `ListRecords`
request is synthesized, restricted to the set when it is named, and
restricted to changes from `last_update` minus one day when a
`last_update` is stored. -/
def buildResumptionData (set : String) (cont : Continuation) :
    Except String ResumptionData :=
  match cont.resumption_data with
  | some r => .ok r
  | none =>
      let req := "verb=ListRecords&metadataPrefix=arXivRaw"
      let req := if set ≠ "" then req ++ "&set=" ++ set else req
      match cont.last_update with
      | some fromDate =>
          match parseDate fromDate with
          | none => .error ("parsing date " ++ fromDate)
          | some dt =>
              .ok { request_number := 1,
                    resumption_request :=
                      req ++ "&from=" ++ formatDate (predDate dt),
                    response_date := none }
      | none =>
          .ok { request_number := 1, resumption_request := req,
                response_date := none }

/-! ## One harvest iteration (`download_changes`, the transaction body)

The HTTP exchange is a collaborator: the model receives the response the
server produced for the one request this iteration issues.  The set name
is taken as already resolved (`Continuation::set_for_category` and
`update_sets` concern no claim). -/

/-- What the decoder would make of the response body: either a decoding
failure (non-UTF-8 bytes or an XML parse error) or the typed document. -/
inductive BodyContent where
  | unparsable
  | parsed (doc : OaipmhListRecords)
deriving DecidableEq, Repr

/-- The response of the one HTTP call of an iteration: success status,
declared content type, raw body bytes and their decoding. -/
structure HttpResponse where
  statusOk : Bool
  contentType : Option String
  rawBytes : String
  content : BodyContent
deriving DecidableEq, Repr

/-- Result of one iteration: continue with the next page
(`Ok(true)` in the source), done (`Ok(false)`), or an error. -/
inductive StepOutcome where
  | more
  | done
  | failed (msg : String)
deriving DecidableEq, Repr

/-- One iteration of the loop of `download_changes`, from reading the
continuation to the commit, in source order.  Returns the durable store,
the side file `update.xml` (its content, or `none` when absent) and the
outcome.  Ledger and article writes take effect only on the paths the
source commits (rolled back otherwise); side-file writes are filesystem
effects and take effect immediately. -/
def harvestStep (st : Store) (sideFile : Option String) (set : String)
    (resp : HttpResponse) : Store × Option String × StepOutcome :=
  match buildResumptionData set (readContinuation st.ledger set) with
  | .error e => (st, sideFile, .failed e)
  | .ok rd0 =>
      -- the fetch: `error_for_status`, then the content-type check,
      -- both before the body bytes are taken
      if resp.statusOk = false then
        (st, sideFile, .failed "requesting data from oaipmh.arxiv.org")
      else if resp.contentType ≠ some "text/xml" then
        (st, sideFile, .failed "wrong content type")
      else
        -- from here on, update.xml holds this response's bytes: it is
        -- saved before parsing
        match resp.content with
        | .unparsable =>
            (st, some resp.rawBytes,
             .failed "parsing response from oaipmh.arxiv.org")
        | .parsed oai =>
            -- extract the response date of the first request
            match (match rd0.response_date with
                   | some d0 => some d0
                   | none => splitAt10 oai.response_date) with
            | none => (st, some resp.rawBytes, .failed "invalid response date")
            | some rdate =>
                if oai.errors.isEmpty = false then
                  if oai.errors.any (fun er => er.code == "badResumptionToken") then
                    -- clear the resumption data, commit, then surface the error
                    ({ st with ledger := clearResumptionData st.ledger set },
                     some resp.rawBytes,
                     .failed "Bad or expired resumption token. Please retry.")
                  else if oai.errors.any (fun er => er.code == "noRecordsMatch") then
                    -- remove update.xml, finalize last_update, commit, stop
                    ({ st with ledger := updateLastUpdate st.ledger set rdate },
                     none, .done)
                  else
                    (st, some resp.rawBytes, .failed "Download failed.")
                else
                  match oai.list_records with
                  | none => (st, some resp.rawBytes, .failed "missing ListRecords")
                  | some lr =>
                      match processRecords st.articles lr.records rdate with
                      | .error e => (st, some resp.rawBytes, .failed e)
                      | .ok arts =>
                          -- nothing went wrong: remove update.xml, then
                          -- reset the whole ledger to this response date;
                          -- with a resumption token persist it, else
                          -- finalize last_update
                          match lr.resumption_token with
                          | some tok =>
                              match tok.value with
                              | some tokValue =>
                                  ({ articles := arts,
                                     ledger := updateResumptionData
                                       (resetLastUpdate st.ledger rdate) set
                                       { request_number := rd0.request_number + 1,
                                         resumption_request :=
                                           "verb=ListRecords&resumptionToken="
                                             ++ tokValue,
                                         response_date := some rdate } },
                                   none, .more)
                              | none =>
                                  ({ articles := arts,
                                     ledger := updateLastUpdate
                                       (resetLastUpdate st.ledger rdate) set rdate },
                                   none, .done)
                          | none =>
                              ({ articles := arts,
                                 ledger := updateLastUpdate
                                   (resetLastUpdate st.ledger rdate) set rdate },
                               none, .done)

/-! ## Bulk export/import (`src/db.rs`, `dump` and `load`) -/

/-- Embedding of `db::DbDump`; the `HashMap` of ledger entries becomes an
association list in iteration order. -/
structure DbDump where
  articles : List ArticleMetadata
  last_update : List (String × String)
deriving DecidableEq, Repr

/-- The per-index `first_encounter` patching of `db::load`: an imported
version whose `first_encounter` is later than the stored one at the same
index is lowered to the stored value.  Indices beyond either list are
untouched. -/
def mergeDumpVersions : List Version → List Version → List Version
  | _, [] => []
  | [], newVs => newVs
  | old_version :: oldRest, new_version :: newRest =>
      (if strLt old_version.first_encounter new_version.first_encounter then
        { new_version with first_encounter := old_version.first_encounter }
      else
        new_version) :: mergeDumpVersions oldRest newRest

/-- The per-article body of the import loop of `db::load`: patch
`first_encounter` against any stored record, validate, write. -/
def importArticle (arts : List ArticleMetadata) (article : ArticleMetadata) :
    Except String (List ArticleMetadata) :=
  match lookupArticle arts article.id with
  | some old_article =>
      match ({ article with
          versions :=
            mergeDumpVersions old_article.versions article.versions } :
          ArticleMetadata).validate with
      | .error e => .error e
      | .ok _ =>
          .ok (writeArticle arts
            { article with
                versions :=
                  mergeDumpVersions old_article.versions article.versions })
  | none =>
      match article.validate with
      | .error e => .error e
      | .ok _ => .ok (writeArticle arts article)

/-- The article loop of `db::load`. -/
def importArticles (arts : List ArticleMetadata) :
    List ArticleMetadata → Except String (List ArticleMetadata)
  | [] => .ok arts
  | a :: rest =>
      match importArticle arts a with
      | .error e => .error e
      | .ok arts2 => importArticles arts2 rest

/-- Embedding of `db::load`: import every article, then apply
`reset_last_update` for every dumped date, then `update_last_update` for
every dumped (set, date) pair, and commit. -/
def loadDump (st : Store) (db : DbDump) : Except String Store :=
  match importArticles st.articles db.articles with
  | .error e => .error e
  | .ok arts =>
      .ok { articles := arts,
            ledger := db.last_update.foldl
              (fun lg sd => updateLastUpdate lg sd.1 sd.2)
              (db.last_update.foldl (fun lg sd => resetLastUpdate lg sd.2)
                st.ledger) }

/-! ## Schema migrator (`src/db.rs`, `upgrade_step` and `with_transaction`)

The claims about the migrator concern which writes each transaction
performs, so the embedding records the statements a step executes as
explicit write events over the version marker read from the store.  The
bookmark filesystem migration of step 4→5 is recorded as one event when
the bookmarks directory exists (its internal failure modes concern no
claim). -/

/-- One write performed inside a migration transaction. -/
inductive WriteOp where
  | alterLastUpdateAddResumptionData
  | dropTableResumptionData
  | alterArticleAddLastChange
  | alterArticleAddSets
  | deleteFromLastUpdate
  | renameLastUpdateToSet
  | renameColumnSetToName
  | alterSetAddCategory
  | updateSetCategory (name : String) (category : String)
  | bookmarksFsMigration
  | updateDbVersion (v : String)
  | commit
deriving DecidableEq, Repr

/-- Split a string at the first colon (Rust `split_once(':')`). -/
def splitOnceColonAux : List Char → List Char → Option (String × String)
  | [], _ => none
  | c :: rest, acc =>
      if c = ':' then some (⟨acc.reverse⟩, ⟨rest⟩)
      else splitOnceColonAux rest (c :: acc)

/-- Split a string at the first colon, or `none` when there is none. -/
def splitOnceColon (s : String) : Option (String × String) :=
  splitOnceColonAux s.data []

/-- Replace every colon by a dot (Rust `replace(':', ".")`). -/
def replaceColonDot (s : String) : String :=
  ⟨s.data.map fun c => if c = ':' then '.' else c⟩

/-- The per-row category updates of the 3→4 step: every set name with a
colon-delimited suffix gets its category column derived from the suffix. -/
def step3Writes (rows : List String) : List WriteOp :=
  rows.filterMap fun spec =>
    match splitOnceColon spec with
    | some sc => some (.updateSetCategory spec (replaceColonDot sc.2))
    | none => none

/-- Outcome of `db::upgrade_step`: hand back the open transaction
untouched, or migrate one step with the listed writes (ending in the
marker update and the commit). -/
inductive UpgradeOutcome where
  | handBack
  | migrated (newVersion : String) (writes : List WriteOp)
deriving DecidableEq, Repr

/-- Embedding of `db::upgrade_step`: read the version marker; at the
target version `"5"` hand back the transaction with zero writes; at a
known lower version perform that one step's writes, write the new marker
and commit; at an unknown marker fail.  `rows` are the set names stored in
the `last_update` table (used by the 3→4 step), `bookmarksDirExists`
whether the bookmarks directory exists (used by the 4→5 step). -/
def upgrade_step (rows : List String) (bookmarksDirExists : Bool)
    (version : String) : Except String UpgradeOutcome :=
  match version with
  | "1" =>
      .ok (.migrated "2"
        ([.alterLastUpdateAddResumptionData, .dropTableResumptionData]
          ++ [.updateDbVersion "2", .commit]))
  | "2" =>
      .ok (.migrated "3"
        ([.alterArticleAddLastChange, .alterArticleAddSets,
          .deleteFromLastUpdate] ++ [.updateDbVersion "3", .commit]))
  | "3" =>
      .ok (.migrated "4"
        ([.renameLastUpdateToSet, .renameColumnSetToName,
          .alterSetAddCategory] ++ step3Writes rows
          ++ [.updateDbVersion "4", .commit]))
  | "4" =>
      .ok (.migrated "5"
        ((if bookmarksDirExists then [.bookmarksFsMigration] else [])
          ++ [.updateDbVersion "5", .commit]))
  | "5" => .ok .handBack
  | _ => .error "unknown database version"

/-- Embedding of the loop of `db::with_transaction`: run `upgrade_step`
until it hands back a transaction, collecting the writes of each committed
step transaction.  The loop is bounded by the number of schema versions;
the fuel argument makes that bound explicit. -/
def migrateLoop (rows : List String) (bookmarksDirExists : Bool) :
    Nat → String → Except String (String × List (List WriteOp))
  | 0, _ => .error "out of fuel"
  | fuel + 1, version =>
      match upgrade_step rows bookmarksDirExists version with
      | .error e => .error e
      | .ok .handBack => .ok (version, [])
      | .ok (.migrated v ws) =>
          match migrateLoop rows bookmarksDirExists fuel v with
          | .error e => .error e
          | .ok vb => .ok (vb.1, ws :: vb.2)

/-- Multi-page absorption of one version list: the stored versions of one
identifier across successive pages, each page merged by the engine with
its response date. -/
def absorbPages (stored : Option (List Version)) (raws : List OaiVersion) :
    List String → Except String (Option (List Version))
  | [] => .ok stored
  | d :: rest =>
      match mergeVersions stored raws d with
      | .error e => .error e
      | .ok out => absorbPages (some out) raws rest

/-! ## Helper lemmas -/

theorem strLtb_irrefl : ∀ as : List Char, strLtb as as = false
  | [] => rfl
  | a :: as => by simp [strLtb, strLtb_irrefl as]

theorem strLtb_trans : ∀ {as bs cs : List Char},
    strLtb as bs = true → strLtb bs cs = true → strLtb as cs = true := by
  intro as
  induction as with
  | nil =>
      intro bs cs h1 h2
      cases bs with
      | nil => cases h1
      | cons b bs2 =>
          cases cs with
          | nil => cases h2
          | cons c cs2 => rfl
  | cons a as2 ih =>
      intro bs cs h1 h2
      cases bs with
      | nil => cases h1
      | cons b bs2 =>
          cases cs with
          | nil => cases h2
          | cons c cs2 =>
              simp only [strLtb] at h1 h2 ⊢
              by_cases hab : a < b
              · simp only [hab, if_true] at h1
                by_cases hbc : b < c
                · simp [lt_trans hab hbc]
                · by_cases hcb : c < b
                  · simp [hbc, hcb] at h2
                  · have hbceq : b = c := le_antisymm (le_of_not_lt hcb) (le_of_not_lt hbc)
                    subst hbceq
                    simp [hab]
              · simp only [hab, if_false] at h1
                by_cases hba : b < a
                · simp [hba] at h1
                · simp only [hba, if_false] at h1
                  have habeq : a = b := le_antisymm (le_of_not_lt hba) (le_of_not_lt hab)
                  subst habeq
                  by_cases hac : a < c
                  · simp [hac]
                  · simp only [hac, if_false] at h2 ⊢
                    by_cases hca : c < a
                    · simp [hca] at h2
                    · simp only [hca, if_false] at h2 ⊢
                      exact ih h1 h2

theorem strLtb_asymm {as bs : List Char} (h : strLtb as bs = true) :
    strLtb bs as = false := by
  cases hr : strLtb bs as with
  | false => rfl
  | true =>
      have := strLtb_trans h hr
      rw [strLtb_irrefl] at this
      cases this

theorem strLe_refl (a : String) : strLe a a = true := by
  simp [strLe, strLt, strLtb_irrefl]

theorem strMin_le_left (a b : String) : strLe (strMin a b) a = true := by
  unfold strMin
  cases hba : strLt b a with
  | false => simp [strLe, strLt, strLtb_irrefl]
  | true =>
      simp only [if_true]
      simp only [strLe, strLt] at hba ⊢
      simp [strLtb_asymm hba]

theorem strLe_of_lt_of_le {a b c : String} (h1 : strLt a b = true)
    (h2 : strLe b c = true) : strLe a c = true := by
  simp only [strLe, strLt, Bool.not_eq_true'] at h2 ⊢
  cases hca : strLtb c.data a.data with
  | false => rfl
  | true =>
      have := strLtb_trans hca h1
      rw [this] at h2
      cases h2

theorem tail_get? {α : Type} (l : List α) (i : Nat) :
    l.tail.get? i = l.get? (i + 1) := by
  cases l <;> rfl

theorem mergeVersionsLoop_cons {d : String} {ov : List Version}
    {v : OaiVersion} {rest : List OaiVersion} {out : List Version}
    (h : mergeVersionsLoop d ov (v :: rest) = .ok out) :
    ∃ number tailVs, parseVersionNumber v.version = some number
      ∧ mergeVersionsLoop d ov.tail rest = .ok tailVs
      ∧ out = { number := number, date := v.date, size := v.size,
                source_type := v.source_type,
                first_encounter :=
                  match ov.head? with
                  | some old_version => strMin old_version.first_encounter d
                  | none => d } :: tailVs := by
  unfold mergeVersionsLoop at h
  cases hn : parseVersionNumber v.version with
  | none => rw [hn] at h; exact absurd h (by simp)
  | some number =>
      rw [hn] at h
      cases hrec : mergeVersionsLoop d ov.tail rest with
      | error e => rw [hrec] at h; exact absurd h (by simp)
      | ok tailVs =>
          rw [hrec] at h
          simp only [Except.ok.injEq] at h
          exact ⟨number, tailVs, rfl, rfl, h.symm⟩

theorem mergeVersionsLoop_length {d : String} {ov : List Version}
    {new : List OaiVersion} {out : List Version}
    (h : mergeVersionsLoop d ov new = .ok out) : out.length = new.length := by
  induction new generalizing ov out with
  | nil => cases h; rfl
  | cons v rest ih =>
      obtain ⟨number, tailVs, _, hrec, hout⟩ := mergeVersionsLoop_cons h
      subst hout
      simpa using ih hrec

theorem mergeVersionsLoop_fe {d : String} {ov : List Version}
    {new : List OaiVersion} {out : List Version}
    (h : mergeVersionsLoop d ov new = .ok out) (i : Nat) :
    (out.get? i).map Version.first_encounter
      = (new.get? i).map fun _ =>
          match ov.get? i with
          | some o => strMin o.first_encounter d
          | none => d := by
  induction new generalizing ov out i with
  | nil => cases h; rfl
  | cons v rest ih =>
      obtain ⟨number, tailVs, _, hrec, hout⟩ := mergeVersionsLoop_cons h
      subst hout
      cases i with
      | zero =>
          simp only [List.get?, Option.map_some]
          cases ov <;> rfl
      | succ j =>
          have := ih hrec (i := j)
          simpa [tail_get?] using this

theorem mergeVersionsLoop_total {d : String} {new : List OaiVersion}
    (hp : ∀ v ∈ new, (parseVersionNumber v.version).isSome) (ov : List Version) :
    ∃ out, mergeVersionsLoop d ov new = .ok out := by
  induction new generalizing ov with
  | nil => exact ⟨[], rfl⟩
  | cons v rest ih =>
      have hv := hp v (by simp)
      obtain ⟨out, hout⟩ := ih (fun w hw => hp w (by simp [hw])) ov.tail
      cases hn : parseVersionNumber v.version with
      | none => rw [hn] at hv; cases hv
      | some n =>
          refine ⟨{ number := n, date := v.date, size := v.size,
                    source_type := v.source_type,
                    first_encounter :=
                      match ov.head? with
                      | some old_version => strMin old_version.first_encounter d
                      | none => d } :: out, ?_⟩
          unfold mergeVersionsLoop
          rw [hn, hout]

theorem mergeVersions_length {svs out : List Version} {raws : List OaiVersion}
    {d : String} (h : mergeVersions (some svs) raws d = .ok out) :
    out.length = raws.length := by
  have h2 : (if raws.length < svs.length then
      (Except.error "more versions in old metadata update" : Except String (List Version))
      else mergeVersionsLoop d svs raws) = .ok out := h
  by_cases hlt : raws.length < svs.length
  · rw [if_pos hlt] at h2; exact Except.noConfusion h2
  · rw [if_neg hlt] at h2; exact mergeVersionsLoop_length h2

theorem mergeVersions_fe {svs out : List Version} {raws : List OaiVersion}
    {d : String} (h : mergeVersions (some svs) raws d = .ok out) (i : Nat) :
    (out.get? i).map Version.first_encounter
      = (raws.get? i).map fun _ =>
          match svs.get? i with
          | some o => strMin o.first_encounter d
          | none => d := by
  have h2 : (if raws.length < svs.length then
      (Except.error "more versions in old metadata update" : Except String (List Version))
      else mergeVersionsLoop d svs raws) = .ok out := h
  by_cases hlt : raws.length < svs.length
  · rw [if_pos hlt] at h2; exact Except.noConfusion h2
  · rw [if_neg hlt] at h2; exact mergeVersionsLoop_fe h2 i

theorem mergeVersions_total {svs : List Version} {raws : List OaiVersion}
    {d : String} (hlen : svs.length ≤ raws.length)
    (hp : ∀ v ∈ raws, (parseVersionNumber v.version).isSome) :
    ∃ out, mergeVersions (some svs) raws d = .ok out := by
  obtain ⟨out, hout⟩ := mergeVersionsLoop_total hp svs
  refine ⟨out, ?_⟩
  have h2 : (if raws.length < svs.length then
      (Except.error "more versions in old metadata update" : Except String (List Version))
      else mergeVersionsLoop d svs raws) = .ok out := by
    rw [if_neg (by omega)]; exact hout
  exact h2

theorem get?_isSome_of_lt {α : Type} {l : List α} {i : Nat} (h : i < l.length) :
    ∃ a, l.get? i = some a := by
  cases hg : l.get? i with
  | none => exact absurd (List.get?_eq_none.mp hg) (by omega)
  | some a => exact ⟨a, rfl⟩

theorem absorbPages_min {raws : List OaiVersion}
    (hp : ∀ v ∈ raws, (parseVersionNumber v.version).isSome) :
    ∀ (ds : List String) (cur : List Version) (accF : Nat → String),
    cur.length = raws.length →
    (∀ i, i < raws.length →
      (cur.get? i).map Version.first_encounter = some (accF i)) →
    ∃ final, absorbPages (some cur) raws ds = .ok (some final) ∧
      final.length = raws.length ∧
      ∀ i, i < raws.length →
        (final.get? i).map Version.first_encounter
          = some (ds.foldl strMin (accF i)) := by
  intro ds
  induction ds with
  | nil =>
      intro cur accF hlen hacc
      exact ⟨cur, rfl, hlen, by simpa using hacc⟩
  | cons d rest ih =>
      intro cur accF hlen hacc
      obtain ⟨out, hmv⟩ := @mergeVersions_total cur raws d (by omega) hp
      have hlen2 : out.length = raws.length := mergeVersions_length hmv
      have hacc2 : ∀ i, i < raws.length →
          (out.get? i).map Version.first_encounter = some (strMin (accF i) d) := by
        intro i hi
        have h1 := mergeVersions_fe hmv i
        have hi2 : i < cur.length := by omega
        obtain ⟨r, hr⟩ := get?_isSome_of_lt (l := raws) (i := i) hi
        obtain ⟨c, hc⟩ := get?_isSome_of_lt (l := cur) (i := i) hi2
        have hcfe : c.first_encounter = accF i := by
          have := hacc i hi
          rw [hc] at this
          simpa using this
        rw [hr, hc] at h1
        simpa [hcfe] using h1
      obtain ⟨final, hfin, hflen, hffe⟩ := ih out (fun i => strMin (accF i) d) hlen2 hacc2
      refine ⟨final, ?_, hflen, ?_⟩
      · show absorbPages (some cur) raws (d :: rest) = .ok (some final)
        unfold absorbPages
        rw [hmv]
        exact hfin
      · intro i hi
        simpa [List.foldl_cons] using hffe i hi

/-! ## Claim C2: first_encounter minimality in the merge engine -/

/-- Claim C2: in every merge of an incoming record with a stored record, a
version index present in both gets `first_encounter = min(stored, d)` and
a new version index gets `d`, where `d` is the response date the merge is
performed against; consequently re-merging never increases any
`first_encounter`, and across pages with response dates `d :: ds` a
version index present on all of them ends at the minimum of those dates. -/
theorem c2_first_encounter_min :
    (∀ (svs out : List Version) (raws : List OaiVersion) (d : String),
      mergeVersions (some svs) raws d = .ok out →
      ∀ i, (out.get? i).map Version.first_encounter
        = (raws.get? i).map fun _ =>
            match svs.get? i with
            | some o => strMin o.first_encounter d
            | none => d) ∧
    (∀ (svs out : List Version) (raws : List OaiVersion) (d : String),
      mergeVersions (some svs) raws d = .ok out →
      ∀ i o v, svs.get? i = some o → out.get? i = some v →
        strLe v.first_encounter o.first_encounter = true) ∧
    (∀ (raws : List OaiVersion) (d : String) (ds : List String),
      (∀ v ∈ raws, (parseVersionNumber v.version).isSome) →
      ∃ final, absorbPages none raws (d :: ds) = .ok (some final) ∧
        ∀ i, i < raws.length →
          (final.get? i).map Version.first_encounter
            = some (ds.foldl strMin d)) := by
  refine ⟨?_, ?_, ?_⟩
  · intro svs out raws d h i
    exact mergeVersions_fe h i
  · intro svs out raws d h i o v hsv hov
    have h1 := mergeVersions_fe h i
    cases hg : raws.get? i with
    | none =>
        rw [hov, hg] at h1
        simp at h1
    | some r =>
        rw [hov, hg, hsv] at h1
        simp at h1
        rw [h1]
        exact strMin_le_left o.first_encounter d
  · intro raws d ds hp
    obtain ⟨out0, hout0⟩ := mergeVersionsLoop_total hp []
    have hmv0 : mergeVersions none raws d = .ok out0 := hout0
    have hlen0 : out0.length = raws.length := mergeVersionsLoop_length hout0
    have hacc0 : ∀ i, i < raws.length →
        (out0.get? i).map Version.first_encounter = some d := by
      intro i hi
      have h1 := mergeVersionsLoop_fe hout0 i
      obtain ⟨r, hr⟩ := get?_isSome_of_lt (l := raws) hi
      rw [hr] at h1
      simpa using h1
    obtain ⟨final, hfin, _, hffe⟩ :=
      absorbPages_min hp ds out0 (fun _ => d) hlen0 hacc0
    refine ⟨final, ?_, fun i hi => hffe i hi⟩
    show absorbPages none raws (d :: ds) = .ok (some final)
    unfold absorbPages
    rw [hmv0]
    exact hfin

/-- Scenario B stored record versions: one version first encountered on
2024-01-05. -/
def scenarioBStored : List Version :=
  [{ number := 1, date := "Fri, 5 Jan 2024 00:00:00 +0000", size := "350kb",
     source_type := none, first_encounter := "2024-01-05" }]

/-- Scenario B incoming record versions: the same identifier now reports
two versions, on a page dated 2024-01-06. -/
def scenarioBRaws : List OaiVersion :=
  [{ version := "v1", date := "Fri, 5 Jan 2024 00:00:00 +0000",
     size := "350kb", source_type := none },
   { version := "v2", date := "Sat, 6 Jan 2024 00:00:00 +0000",
     size := "370kb", source_type := none }]

/-- Scenario B merged versions: version 1 keeps its first encounter,
version 2 gets the page's response date. -/
def scenarioBOut : List Version :=
  [{ number := 1, date := "Fri, 5 Jan 2024 00:00:00 +0000", size := "350kb",
     source_type := none, first_encounter := "2024-01-05" },
   { number := 2, date := "Sat, 6 Jan 2024 00:00:00 +0000", size := "370kb",
     source_type := none, first_encounter := "2024-01-06" }]

/-- Witness for C2 at Scenario B of the specification. -/
theorem c2_first_encounter_min_witness :
    (mergeVersions (some scenarioBStored) scenarioBRaws "2024-01-06"
        = .ok scenarioBOut)
    ∧ ((scenarioBOut.get? 0).map Version.first_encounter
        = (scenarioBRaws.get? 0).map fun _ =>
            match scenarioBStored.get? 0 with
            | some o => strMin o.first_encounter "2024-01-06"
            | none => "2024-01-06")
    ∧ ((scenarioBOut.get? 1).map Version.first_encounter
        = (scenarioBRaws.get? 1).map fun _ =>
            match scenarioBStored.get? 1 with
            | some o => strMin o.first_encounter "2024-01-06"
            | none => "2024-01-06") := by
  have hm : mergeVersions (some scenarioBStored) scenarioBRaws "2024-01-06"
      = .ok scenarioBOut := by rfl
  exact ⟨hm,
    c2_first_encounter_min.1 scenarioBStored scenarioBOut scenarioBRaws
      "2024-01-06" hm 0,
    c2_first_encounter_min.1 scenarioBStored scenarioBOut scenarioBRaws
      "2024-01-06" hm 1⟩

/-! ## Claim C10: identifier / directory-name round trip -/

theorem validChar_no_underscore {c : Char} (h : validChar c = true) : c ≠ '_' := by
  intro hc
  subst hc
  simp [validChar] at h

/-- Claim C10: every string accepted by the identifier parser is
recovered by converting it to a directory name and back:
`from_dir_name (dir_name id) = some id`.  This holds because an
underscore is not a valid identifier character, so the slash-to-
underscore replacement is invertible. -/
theorem c10_dir_name_roundtrip (s id : String)
    (h : ArxivId.from_str s = some id) :
    ArxivId.from_dir_name (ArxivId.dir_name id) = some id := by
  unfold ArxivId.from_str at h
  split at h
  case isFalse => exact Option.noConfusion h
  case isTrue hc =>
      cases h
      have hall : ∀ c ∈ s.data, validChar c = true := by
        have h3 := (Bool.and_eq_true _ _).mp hc
        exact List.all_eq_true.mp h3.2
      unfold ArxivId.from_dir_name ArxivId.dir_name
      show ArxivId.from_str
          ⟨(s.data.map fun c => if c = '/' then '_' else c).map
            fun c => if c = '_' then '/' else c⟩ = some s
      rw [List.map_map]
      have hmap : (s.data.map
          ((fun c => if c = '_' then '/' else c) ∘ fun c => if c = '/' then '_' else c))
          = s.data := by
        have := List.map_congr_left (l := s.data)
          (f := (fun c => if c = '_' then '/' else c) ∘ fun c => if c = '/' then '_' else c)
          (g := id) ?_
        · simpa using this
        · intro c hcmem
          have hv := hall c hcmem
          by_cases hcs : c = '/'
          · subst hcs; simp [Function.comp]
          · have hcu : c ≠ '_' := validChar_no_underscore hv
            simp [Function.comp, hcs, hcu]
      rw [hmap]
      show ArxivId.from_str s = some s
      unfold ArxivId.from_str
      rw [if_pos hc]

/-- Witness for C10 at the concrete identifier `math/0211159`. -/
theorem c10_dir_name_roundtrip_witness :
    (ArxivId.from_str "math/0211159" = some "math/0211159")
    ∧ ArxivId.from_dir_name (ArxivId.dir_name "math/0211159")
        = some "math/0211159" :=
  ⟨by rfl, c10_dir_name_roundtrip "math/0211159" "math/0211159" (by rfl)⟩

/-! ## Claim C1: the direction of `reset_last_update` -/

/-- Claim C1 is refuted by the code: `reset_last_update` performs the
comparison `date < prev_date` (src/oai.rs line 86), the reverse of the one
its own doc comment on line 76 states ("For every set with last update <
date, assign last update = date").  Evaluating the embedded function shows
both divergences: a partition whose stored `last_update` `"2024-01-10"` is
*above* the argument `"2024-01-05"` is *lowered* to it (the claim says
`last_update` is never lowered), and a partition whose stored
`last_update` is *below* the argument `"2024-01-15"` is left unchanged
(the claim says it is raised). -/
theorem c1_reset_last_update_lowers :
    resetLastUpdate
        [{ name := "cs", date := some "2024-01-10", resumption_data := none }]
        "2024-01-05"
      = [{ name := "cs", date := some "2024-01-05", resumption_data := none }]
    ∧ resetLastUpdate
        [{ name := "cs", date := some "2024-01-10", resumption_data := none }]
        "2024-01-15"
      = [{ name := "cs", date := some "2024-01-10", resumption_data := none }] :=
  ⟨by rfl, by rfl⟩

/-! ## Claim C5: the validation predicate -/

/-- A record whose second (and last) version carries number 99. -/
def articleUncheckedLast : ArticleMetadata :=
  { id := "2401.00001", submitter := "s",
    versions :=
      [{ number := 1, date := "Fri, 5 Jan 2024 00:00:00 +0000",
         size := "350kb", source_type := none,
         first_encounter := "2024-01-05" },
       { number := 99, date := "Sat, 6 Jan 2024 00:00:00 +0000",
         size := "370kb", source_type := none,
         first_encounter := "2024-01-06" }],
    title := "t", authors := "a", categories := ["cs.LO"],
    comments := none, proxy := none, report_no := none,
    acm_classes := none, msc_classes := none, journal_ref := none,
    doi := none, license := none, abstract_ := "b",
    last_change := none, sets := none }

/-- Counterexample to C5 as stated: validation succeeds on a two-version
record whose last version carries number 99 instead of 2, because the
source loop `for i in 0..self.versions.len() - 1` never checks the last
version's number.  The claimed equivalence ("validation succeeds iff ...
the i-th version, for every i from 1 to the number of versions, has
number i") therefore fails at this record. -/
theorem c5_validate_counterexample :
    articleUncheckedLast.validate = .ok ()
    ∧ (articleUncheckedLast.versions.get? 1).map Version.number = some 99
    ∧ articleUncheckedLast.versions.length = 2 :=
  ⟨by rfl, by rfl, by rfl⟩

/-- Claim C5 amended: validation succeeds iff the record has at least one
version, at least one category, and the version at index `i` carries
number `i + 1` for every index except the last (the last version's number
is unchecked); and every record the page loop persists was validated
successfully. -/
theorem c5_validate_amended :
    (∀ a : ArticleMetadata,
      a.validate = .ok () ↔
        (a.versions ≠ [] ∧ a.categories ≠ [] ∧
          ∀ i, i + 1 < a.versions.length →
            (a.versions.get? i).map Version.number = some (i + 1))) ∧
    (∀ arts record d arts2, processRecord arts record d = .ok arts2 →
      ∃ a, a.validate = .ok () ∧ arts2 = writeArticle arts a) := by
  constructor
  · intro a
    unfold ArticleMetadata.validate
    by_cases h1 : a.versions.isEmpty = true
    · rw [if_pos h1]
      have hnil : a.versions = [] := by
        cases hE : a.versions with
        | nil => rfl
        | cons x xs => rw [hE] at h1; simp at h1
      simp [hnil]
    · rw [if_neg h1]
      have hne : a.versions ≠ [] := by
        intro hh
        rw [hh] at h1
        exact h1 rfl
      by_cases h2 : a.categories.isEmpty = true
      · rw [if_pos h2]
        have hcnil : a.categories = [] := by
          cases hE : a.categories with
          | nil => rfl
          | cons x xs => rw [hE] at h2; simp at h2
        simp [hcnil]
      · rw [if_neg h2]
        have hcne : a.categories ≠ [] := by
          intro hh
          rw [hh] at h2
          exact h2 rfl
        by_cases h3 : (List.range (a.versions.length - 1)).all
            (fun i => match a.versions.get? i with
              | some v => v.number == i + 1
              | none => true) = true
        · rw [if_pos h3]
          constructor
          · intro _
            refine ⟨hne, hcne, ?_⟩
            intro i hi
            have hp := List.all_eq_true.mp h3 i (List.mem_range.mpr (by omega))
            obtain ⟨v, hv⟩ := get?_isSome_of_lt (l := a.versions) (i := i) (by omega)
            rw [hv] at hp ⊢
            simp only [beq_iff_eq] at hp
            simp [hp]
          · intro _
            rfl
        · rw [if_neg h3]
          constructor
          · intro hcontra
            exact Except.noConfusion hcontra
          · rintro ⟨_, _, hall⟩
            exfalso
            apply h3
            apply List.all_eq_true.mpr
            intro i hmem
            have hi := List.mem_range.mp hmem
            obtain ⟨v, hv⟩ := get?_isSome_of_lt (l := a.versions) (i := i) (by omega)
            have hvn := hall i (by omega)
            rw [hv] at hvn ⊢
            have hvn2 : v.number = i + 1 := by simpa using hvn
            simp [hvn2]
  · intro arts record d arts2 h
    unfold processRecord at h
    split at h
    · exact Except.noConfusion h
    · split at h
      · exact Except.noConfusion h
      · split at h
        · exact Except.noConfusion h
        · rename_i u hval
          injection h with h3
          exact ⟨_, hval, h3.symm⟩

/-- A decoded record carrying one version and two categories. -/
def sampleRecord : OaiRecord :=
  { header := { datestamp := "2024-01-06", sets := ["cs"] },
    arxiv_raw :=
      { id := "2401.00001", submitter := "s",
        versions :=
          [{ version := "v1", date := "Fri, 5 Jan 2024 00:00:00 +0000",
             size := "350kb", source_type := none }],
        title := "t", authors := "a", categories := "cs.LO cs.PL",
        comments := none, proxy := none, report_no := none,
        acm_classes := none, msc_classes := none, journal_ref := none,
        doi := none, license := none, abstract_ := "b" } }

/-- The record `sampleRecord` persists into an empty store. -/
def sampleStoredArticle : ArticleMetadata :=
  { id := "2401.00001", submitter := "s",
    versions :=
      [{ number := 1, date := "Fri, 5 Jan 2024 00:00:00 +0000",
         size := "350kb", source_type := none,
         first_encounter := "2024-01-06" }],
    title := "t", authors := "a", categories := ["cs.LO", "cs.PL"],
    comments := none, proxy := none, report_no := none,
    acm_classes := none, msc_classes := none, journal_ref := none,
    doi := none, license := none, abstract_ := "b",
    last_change := some "2024-01-06", sets := some ["cs"] }

/-- Witness for the amended C5: the equivalence evaluated at
`sampleStoredArticle`, and the validate-before-persist conjunct at the
concrete page record `sampleRecord`. -/
theorem c5_validate_amended_witness :
    (sampleStoredArticle.validate = .ok ())
    ∧ (processRecord [] sampleRecord "2024-01-06" = .ok [sampleStoredArticle])
    ∧ (∃ a, a.validate = .ok ()
        ∧ [sampleStoredArticle] = writeArticle [] a) := by
  refine ⟨?_, by rfl, ?_⟩
  · exact (c5_validate_amended.1 sampleStoredArticle).mpr
      ⟨by simp [sampleStoredArticle], by simp [sampleStoredArticle],
        fun i hi => by
          exfalso
          have h1 : sampleStoredArticle.versions.length = 1 := rfl
          omega⟩
  · exact c5_validate_amended.2 [] sampleRecord "2024-01-06"
      [sampleStoredArticle] (by rfl)

/-! ## Claim C6: the frame of `update_last_update` -/

/-- Counterexample to C6 as stated: `update_last_update("cs",
"2024-02-01")` modifies the ledger entry of the *other* partition
`math` as well (its stored `"2024-03-01"` is above the date, so the
embedded `reset_last_update` call lowers it), refuting "the ledger
entries of every other partition are left unchanged". -/
theorem c6_update_frame_counterexample :
    updateLastUpdate
        [{ name := "cs", date := some "2024-01-01", resumption_data := none },
         { name := "math", date := some "2024-03-01", resumption_data := none }]
        "cs" "2024-02-01"
      = [{ name := "cs", date := some "2024-02-01", resumption_data := none },
         { name := "math", date := some "2024-02-01", resumption_data := none }] := by
  rfl

/-- Claim C6 amended: `update_last_update(set, date)` first applies
`reset_last_update(date)` to the whole ledger — lowering every partition
whose stored date is above `date` and clearing its resumption — and then
sets the named partition's date to exactly `date`, clearing its
resumption.  Partitions other than the named one whose stored date is not
above `date` are left unchanged. -/
theorem c6_update_scope_amended (ledger : List ContinuationRow)
    (set d : String) :
    updateLastUpdate ledger set d = ledger.map fun row =>
      if row.name == set then
        { row with date := some d, resumption_data := none }
      else
        match row.date with
        | some prev =>
            if strLt d prev then
              { row with date := some d, resumption_data := none }
            else
              row
        | none => row := by
  unfold updateLastUpdate resetLastUpdate
  rw [List.map_map]
  apply List.map_congr_left
  intro row _
  cases row with
  | mk name date res =>
      simp only [Function.comp]
      cases date with
      | none =>
          by_cases h : (name == set) = true <;> simp [h]
      | some prev =>
          by_cases h : (name == set) = true <;>
            by_cases h2 : strLt d prev = true <;>
              simp [h, h2]

/-! ## Claim C7: build-or-resume-request -/

/-- Claim C7: a harvest iteration with stored resumption data replays the
stored request payload verbatim; without it, the synthesized request
carries a from-parameter equal to the partition's `last_update` minus one
calendar day. -/
theorem c7_build_or_resume :
    (∀ (set : String) (lu : Option String) (r : ResumptionData),
      buildResumptionData set { last_update := lu, resumption_data := some r }
        = .ok r) ∧
    (∀ (set D : String) (dt : Date), parseDate D = some dt →
      buildResumptionData set { last_update := some D, resumption_data := none }
        = .ok { request_number := 1,
                resumption_request :=
                  (if set ≠ "" then
                    "verb=ListRecords&metadataPrefix=arXivRaw" ++ "&set=" ++ set
                  else
                    "verb=ListRecords&metadataPrefix=arXivRaw")
                  ++ "&from=" ++ formatDate (predDate dt),
                response_date := none }) := by
  refine ⟨fun set lu r => rfl, fun set D dt h => ?_⟩
  unfold buildResumptionData
  simp only [h]

/-- Witness for C7: Scenario A's synthesized request, with
`last_update = "2024-01-10"` yielding `from=2024-01-09`. -/
theorem c7_build_or_resume_witness :
    (parseDate "2024-01-10" = some { year := 2024, month := 1, day := 10 })
    ∧ buildResumptionData "cs"
        { last_update := some "2024-01-10", resumption_data := none }
      = .ok { request_number := 1,
              resumption_request :=
                "verb=ListRecords&metadataPrefix=arXivRaw&set=cs&from=2024-01-09",
              response_date := none } := by
  refine ⟨by rfl, ?_⟩
  have h := c7_build_or_resume.2 "cs" "2024-01-10"
    { year := 2024, month := 1, day := 10 } (by rfl)
  rw [h]
  rfl

/-! ## Claim C9: the schema migrator -/

theorem upgradeStep_handBack {rows : List String} {bm : Bool} {v : String}
    (h : upgrade_step rows bm v = .ok .handBack) : v = "5" := by
  unfold upgrade_step at h
  split at h
  · simp at h
  · simp at h
  · simp at h
  · simp at h
  · rfl
  · simp at h

theorem upgradeStep_migrated_shape {rows : List String} {bm : Bool}
    {v v2 : String} {ws : List WriteOp}
    (h : upgrade_step rows bm v = .ok (.migrated v2 ws)) :
    ∃ pre, ws = pre ++ [.updateDbVersion v2, .commit] := by
  unfold upgrade_step at h
  split at h
  · simp only [Except.ok.injEq, UpgradeOutcome.migrated.injEq] at h
    exact ⟨_, h.2.symm.trans (by rw [h.1])⟩
  · simp only [Except.ok.injEq, UpgradeOutcome.migrated.injEq] at h
    exact ⟨_, h.2.symm.trans (by rw [h.1])⟩
  · simp only [Except.ok.injEq, UpgradeOutcome.migrated.injEq] at h
    exact ⟨_, h.2.symm.trans (by rw [h.1])⟩
  · simp only [Except.ok.injEq, UpgradeOutcome.migrated.injEq] at h
    exact ⟨_, h.2.symm.trans (by rw [h.1])⟩
  · exact absurd h (by simp)
  · exact absurd h (by simp)

/-- Claim C9: running the migrator at the target marker `"5"` performs
zero writes (the step hands back the open transaction and the loop
records no write batches); at a marker below target each loop iteration
performs exactly one step's transformation in its own transaction, ending
with the new marker write and the commit, and the loop ends at the
target marker. -/
theorem c9_migrator :
    (∀ rows bm, upgrade_step rows bm "5" = .ok .handBack) ∧
    (∀ rows bm fuel, migrateLoop rows bm (fuel + 1) "5" = .ok ("5", [])) ∧
    (∀ rows bm v v2 ws, upgrade_step rows bm v = .ok (.migrated v2 ws) →
      ∃ pre, ws = pre ++ [.updateDbVersion v2, .commit]) ∧
    (∀ rows bm fuel v vf batches,
      migrateLoop rows bm fuel v = .ok (vf, batches) →
      vf = "5" ∧ ∀ b ∈ batches,
        ∃ v2 pre, b = pre ++ [.updateDbVersion v2, .commit]) := by
  refine ⟨fun rows bm => rfl, fun rows bm fuel => rfl, ?_, ?_⟩
  · intro rows bm v v2 ws h
    exact upgradeStep_migrated_shape h
  · intro rows bm fuel
    induction fuel with
    | zero =>
        intro v vf batches h
        exact Except.noConfusion h
    | succ fuel ih =>
        intro v vf batches h
        unfold migrateLoop at h
        split at h
        · exact Except.noConfusion h
        · rename_i heq
          simp only [Except.ok.injEq, Prod.mk.injEq] at h
          obtain ⟨h1, h2⟩ := h
          subst h1
          subst h2
          exact ⟨upgradeStep_handBack heq, by simp⟩
        · rename_i v3 ws heq
          split at h
          · exact Except.noConfusion h
          · rename_i vb hrec
            simp only [Except.ok.injEq, Prod.mk.injEq] at h
            obtain ⟨h1, h2⟩ := h
            subst h1
            subst h2
            obtain ⟨hvf, hbatches⟩ := ih v3 vb.1 vb.2 (by rw [hrec])
            refine ⟨hvf, ?_⟩
            intro b hb
            cases hb with
            | head =>
                obtain ⟨pre, hpre⟩ := upgradeStep_migrated_shape heq
                exact ⟨v3, pre, hpre⟩
            | tail _ hb2 => exact hbatches b hb2

/-- Witness for C9: the hypothesised conjuncts applied at marker `"1"`
with five units of fuel. -/
theorem c9_migrator_witness :
    (∃ pre, [WriteOp.alterLastUpdateAddResumptionData,
             WriteOp.dropTableResumptionData,
             WriteOp.updateDbVersion "2", WriteOp.commit]
        = pre ++ [WriteOp.updateDbVersion "2", WriteOp.commit])
    ∧ ("5" = "5" ∧ ∀ b ∈ [[WriteOp.alterLastUpdateAddResumptionData,
          WriteOp.dropTableResumptionData,
          WriteOp.updateDbVersion "2", WriteOp.commit],
         [WriteOp.alterArticleAddLastChange, WriteOp.alterArticleAddSets,
          WriteOp.deleteFromLastUpdate,
          WriteOp.updateDbVersion "3", WriteOp.commit],
         [WriteOp.renameLastUpdateToSet, WriteOp.renameColumnSetToName,
          WriteOp.alterSetAddCategory,
          WriteOp.updateDbVersion "4", WriteOp.commit],
         [WriteOp.updateDbVersion "5", WriteOp.commit]],
        ∃ v2 pre, b = pre ++ [WriteOp.updateDbVersion v2, WriteOp.commit]) :=
  ⟨c9_migrator.2.2.1 [] false "1" "2" _ (by rfl),
   c9_migrator.2.2.2 [] false 5 "1" "5" _ (by rfl)⟩

/-! ## Claim C3: monotone version count, fatal regression -/

theorem mergeVersions_regress {svs : List Version} {raws : List OaiVersion}
    {d : String} (hlt : raws.length < svs.length) :
    mergeVersions (some svs) raws d
      = .error "more versions in old metadata update" := by
  have h2 : mergeVersions (some svs) raws d
      = (if raws.length < svs.length then
          (Except.error "more versions in old metadata update" :
            Except String (List Version))
        else mergeVersionsLoop d svs raws) := rfl
  rw [h2, if_pos hlt]

theorem mergeVersions_count_ge {svs out : List Version}
    {raws : List OaiVersion} {d : String}
    (h : mergeVersions (some svs) raws d = .ok out) :
    svs.length ≤ out.length := by
  have hlen := mergeVersions_length h
  by_cases hlt : raws.length < svs.length
  · rw [mergeVersions_regress hlt] at h
    exact Except.noConfusion h
  · omega

theorem find?_cons_ite (p : ArticleMetadata → Bool) (x : ArticleMetadata)
    (l : List ArticleMetadata) :
    List.find? p (x :: l) = if p x = true then some x else List.find? p l := by
  rw [List.find?_cons]
  cases p x <;> simp

theorem lookup_map_replace (arts : List ArticleMetadata)
    (a : ArticleMetadata) (id : String) :
    ((arts.map fun b => if b.id == a.id then a else b).find?
        fun b => b.id == id)
      = if (a.id == id) = true ∧ arts.any (fun b => b.id == a.id) = true
        then some a
        else arts.find? fun b => b.id == id := by
  induction arts with
  | nil => simp
  | cons b rest ih =>
      rw [List.map_cons, find?_cons_ite, find?_cons_ite]
      by_cases hb : b.id = a.id
      · have hbq : (b.id == a.id) = true := by simp [hb]
        rw [if_pos hbq]
        by_cases haid : a.id = id
        · have haq : (a.id == id) = true := by simp [haid]
          simp [haq, List.any_cons, hbq]
        · have haq : (a.id == id) = false := by simp [haid]
          have hpq : (b.id == id) = false := by rw [hb]; exact haq
          simp [-List.find?_map, haq, hpq, List.any_cons] at ih ⊢
          exact ih
      · have hbq : (b.id == a.id) = false := by simp [hb]
        rw [if_neg (show ¬((b.id == a.id) = true) by simp [hbq])]
        by_cases hpb : b.id = id
        · have hpq : (b.id == id) = true := by simp [hpb]
          have haq : (a.id == id) = false := by
            have h3 : ¬a.id = id := fun hc => hb (hpb.trans hc.symm)
            simp [h3]
          simp [hpq, haq]
        · have hpq : (b.id == id) = false := by simp [hpb]
          simp [-List.find?_map, hpq, hbq, List.any_cons] at ih ⊢
          exact ih

theorem lookupArticle_writeArticle (arts : List ArticleMetadata)
    (a : ArticleMetadata) (id : String) :
    lookupArticle (writeArticle arts a) id
      = if (a.id == id) = true then some a else lookupArticle arts id := by
  unfold writeArticle lookupArticle
  by_cases hany : arts.any (fun b => b.id == a.id) = true
  · rw [if_pos hany, lookup_map_replace]
    by_cases haid : (a.id == id) = true
    · rw [if_pos ⟨haid, hany⟩, if_pos haid]
    · rw [if_neg (fun hc => absurd hc.1 haid), if_neg haid]
  · rw [if_neg hany, List.find?_append]
    by_cases haid : (a.id == id) = true
    · rw [if_pos haid]
      have hnone : arts.find? (fun b => b.id == id) = none := by
        cases hf : arts.find? (fun b => b.id == id) with
        | none => rfl
        | some x =>
            have hx := List.find?_some hf
            have hxmem := List.mem_of_find?_eq_some hf
            have hxa : (x.id == a.id) = true := by
              have h1 : x.id = id := by simpa using hx
              have h2 : a.id = id := by simpa using haid
              simp [h1, h2]
            exact absurd (List.any_eq_true.mpr ⟨x, hxmem, hxa⟩) hany
      rw [hnone]
      simp [List.find?, haid]
    · rw [if_neg haid]
      simp [List.find?, haid]

theorem processRecord_count {arts arts1 : List ArticleMetadata}
    {record : OaiRecord} {d : String}
    (h : processRecord arts record d = .ok arts1) :
    ∀ id old, lookupArticle arts id = some old →
      ∃ a, lookupArticle arts1 id = some a
        ∧ old.versions.length ≤ a.versions.length := by
  intro id old hlk
  unfold processRecord at h
  split at h
  · exact Except.noConfusion h
  · rename_i idr hfs
    split at h
    · exact Except.noConfusion h
    · rename_i versions hmv
      split at h
      · exact Except.noConfusion h
      · rename_i u hval
        injection h with h3
        subst h3
        rw [lookupArticle_writeArticle]
        by_cases hid : ((buildArticle record idr versions).id == id) = true
        · rw [if_pos hid]
          refine ⟨buildArticle record idr versions, rfl, ?_⟩
          have hidr : idr = id := by
            simpa [buildArticle] using hid
          subst hidr
          rw [hlk] at hmv
          simp only [Option.map] at hmv
          have := mergeVersions_count_ge hmv
          simpa [buildArticle] using this
        · rw [if_neg hid]
          exact ⟨old, hlk, le_refl _⟩

theorem processRecords_count {records : List OaiRecord} {d : String} :
    ∀ {arts arts2 : List ArticleMetadata},
    processRecords arts records d = .ok arts2 →
    ∀ id old, lookupArticle arts id = some old →
      ∃ a, lookupArticle arts2 id = some a
        ∧ old.versions.length ≤ a.versions.length := by
  induction records with
  | nil =>
      intro arts arts2 h id old hlk
      cases h
      exact ⟨old, hlk, le_refl _⟩
  | cons r rest ih =>
      intro arts arts2 h id old hlk
      unfold processRecords at h
      split at h
      · exact Except.noConfusion h
      · rename_i arts1 hpr
        obtain ⟨a, ha, hlen⟩ := processRecord_count hpr id old hlk
        obtain ⟨a2, ha2, hlen2⟩ := ih h id a ha
        exact ⟨a2, ha2, le_trans hlen hlen2⟩

theorem harvestStep_failed_store {st : Store} {sf : Option String}
    {set : String} {resp : HttpResponse} {st2 : Store} {sf2 : Option String}
    {e : String} (h : harvestStep st sf set resp = (st2, sf2, .failed e))
    (hne : e ≠ "Bad or expired resumption token. Please retry.") :
    st2 = st := by
  unfold harvestStep at h
  repeat' split at h
  all_goals simp only [Prod.mk.injEq] at h
  all_goals obtain ⟨h1, h2, h3⟩ := h
  all_goals first
    | exact StepOutcome.noConfusion h3
    | exact h1.symm
    | (simp only [StepOutcome.failed.injEq] at h3; exact absurd h3.symm hne)

/-- Claim C3: a merge whose incoming record has strictly fewer versions
than the stored record fails with the fatal integrity error, the
per-record processing surfaces that error, any failing page (other than
the bad-resumption-token page, which deliberately commits its cleared
token) leaves the durable store unchanged, and a successful page never
decreases any stored record's version count. -/
theorem c3_version_count_monotone :
    (∀ (svs : List Version) (raws : List OaiVersion) (d : String),
      raws.length < svs.length →
      mergeVersions (some svs) raws d
        = .error "more versions in old metadata update") ∧
    (∀ (arts : List ArticleMetadata) (record : OaiRecord) (d id : String)
        (old : ArticleMetadata),
      ArxivId.from_str record.arxiv_raw.id = some id →
      lookupArticle arts id = some old →
      record.arxiv_raw.versions.length < old.versions.length →
      processRecord arts record d
        = .error "more versions in old metadata update") ∧
    (∀ (st : Store) (sf : Option String) (set : String)
        (resp : HttpResponse) (st2 : Store) (sf2 : Option String) (e : String),
      harvestStep st sf set resp = (st2, sf2, .failed e) →
      e ≠ "Bad or expired resumption token. Please retry." →
      st2 = st) ∧
    (∀ (arts arts2 : List ArticleMetadata) (records : List OaiRecord)
        (d : String),
      processRecords arts records d = .ok arts2 →
      ∀ id old, lookupArticle arts id = some old →
        ∃ a, lookupArticle arts2 id = some a
          ∧ old.versions.length ≤ a.versions.length) := by
  refine ⟨?_, ?_, ?_, ?_⟩
  · intro svs raws d hlt
    exact mergeVersions_regress hlt
  · intro arts record d id old hfs hlk hlt
    unfold processRecord
    rw [hfs]
    show (match mergeVersions ((lookupArticle arts id).map fun a => a.versions)
        record.arxiv_raw.versions d with
      | .error e => Except.error e
      | .ok versions =>
          match (buildArticle record id versions).validate with
          | .error e => .error e
          | .ok _ => .ok (writeArticle arts (buildArticle record id versions)))
      = .error "more versions in old metadata update"
    rw [hlk]
    show (match mergeVersions (some old.versions)
        record.arxiv_raw.versions d with
      | .error e => Except.error e
      | .ok versions =>
          match (buildArticle record id versions).validate with
          | .error e => .error e
          | .ok _ => .ok (writeArticle arts (buildArticle record id versions)))
      = .error "more versions in old metadata update"
    rw [mergeVersions_regress hlt]
  · intro st sf set resp st2 sf2 e h hne
    exact harvestStep_failed_store h hne
  · intro arts arts2 records d h id old hlk
    exact processRecords_count h id old hlk

/-- A stored record with two versions, used to exercise the version-count
regression check. -/
def storedTwoVersions : ArticleMetadata :=
  { id := "2401.00002", submitter := "s",
    versions :=
      [{ number := 1, date := "Fri, 5 Jan 2024 00:00:00 +0000",
         size := "350kb", source_type := none,
         first_encounter := "2024-01-05" },
       { number := 2, date := "Sat, 6 Jan 2024 00:00:00 +0000",
         size := "370kb", source_type := none,
         first_encounter := "2024-01-06" }],
    title := "t", authors := "a", categories := ["cs.LO"],
    comments := none, proxy := none, report_no := none,
    acm_classes := none, msc_classes := none, journal_ref := none,
    doi := none, license := none, abstract_ := "b",
    last_change := none, sets := none }

/-- A decoded record for the same identifier reporting only one version. -/
def regressingRecord : OaiRecord :=
  { header := { datestamp := "2024-01-07", sets := ["cs"] },
    arxiv_raw :=
      { id := "2401.00002", submitter := "s",
        versions :=
          [{ version := "v1", date := "Fri, 5 Jan 2024 00:00:00 +0000",
             size := "350kb", source_type := none }],
        title := "t", authors := "a", categories := "cs.LO",
        comments := none, proxy := none, report_no := none,
        acm_classes := none, msc_classes := none, journal_ref := none,
        doi := none, license := none, abstract_ := "b" } }

/-- A concrete store for the harvest-step witness. -/
def witnessStore : Store :=
  { articles := [storedTwoVersions],
    ledger := [{ name := "cs", date := some "2024-01-10",
                 resumption_data := none }] }

/-- A response whose fetch failed (non-success status). -/
def failingResp : HttpResponse :=
  { statusOk := false, contentType := some "text/xml",
    rawBytes := "x", content := .unparsable }

/-- Witness for C3: the regression error at a concrete one-versus-two
record, the unchanged store on a concrete failing fetch, and the count
bound on a concrete successful (empty) page. -/
theorem c3_version_count_monotone_witness :
    (regressingRecord.arxiv_raw.versions.length
        < storedTwoVersions.versions.length)
    ∧ (processRecord [storedTwoVersions] regressingRecord "2024-01-07"
        = .error "more versions in old metadata update")
    ∧ (harvestStep witnessStore none "cs" failingResp
        = (witnessStore, none,
           .failed "requesting data from oaipmh.arxiv.org")
        ∧ witnessStore = witnessStore)
    ∧ (∃ a, lookupArticle [storedTwoVersions] "2401.00002" = some a
        ∧ storedTwoVersions.versions.length ≤ a.versions.length) := by
  refine ⟨by decide, ?_, ⟨by rfl, ?_⟩, ?_⟩
  · exact c3_version_count_monotone.2.1 [storedTwoVersions] regressingRecord
      "2024-01-07" "2401.00002" storedTwoVersions (by rfl) (by rfl) (by decide)
  · exact c3_version_count_monotone.2.2.1 witnessStore none "cs" failingResp
      witnessStore none
      "requesting data from oaipmh.arxiv.org" (by rfl) (by decide)
  · exact c3_version_count_monotone.2.2.2 [storedTwoVersions]
      [storedTwoVersions] [] "2024-01-07" (by rfl) "2401.00002"
      storedTwoVersions (by rfl)

/-! ## Claim C8: the diagnostic side file -/

/-- A response declaring content type `text/plain`. -/
def plainTextResp : HttpResponse :=
  { statusOk := true, contentType := some "text/plain",
    rawBytes := "this is not xml",
    content := .parsed { response_date := "2024-01-10T00:00:00Z",
                         errors := [], list_records := none } }

/-- Counterexample to C8 as stated (Scenario C): on a response declaring
content type `text/plain`, the page fails with no ledger commit, but the
side file has NOT been written for this page: the content-type check in
the source (src/oai.rs:210-213) runs before the body bytes are taken and
before `update.xml` is written (src/oai.rs:220-225), so starting with no
side file, the failing step ends with no side file — the claim's "the
side file, already written before parse was attempted, is left in place"
is false at this input. -/
theorem c8_side_file_counterexample :
    harvestStep witnessStore none "cs" plainTextResp
      = (witnessStore, none, .failed "wrong content type") := by
  rfl

/-- Claim C8 amended: once the status and content-type checks pass, the
raw bytes are written to the side file before parsing is attempted and
are left in place when parsing fails; a failing step never removes an
existing side file; but on a wrong content type the page fails before the
side file is written, leaving the store and any pre-existing side file
unchanged. -/
theorem c8_side_file_amended :
    (∀ (st : Store) (sf : Option String) (set : String)
        (resp : HttpResponse) (rd0 : ResumptionData),
      buildResumptionData set (readContinuation st.ledger set) = .ok rd0 →
      resp.statusOk = true →
      resp.contentType ≠ some "text/xml" →
      harvestStep st sf set resp = (st, sf, .failed "wrong content type")) ∧
    (∀ (st : Store) (sf : Option String) (set : String)
        (resp : HttpResponse) (rd0 : ResumptionData),
      buildResumptionData set (readContinuation st.ledger set) = .ok rd0 →
      resp.statusOk = true →
      resp.contentType = some "text/xml" →
      resp.content = .unparsable →
      harvestStep st sf set resp
        = (st, some resp.rawBytes,
           .failed "parsing response from oaipmh.arxiv.org")) ∧
    (∀ (st : Store) (sf : Option String) (set : String)
        (resp : HttpResponse) (st2 : Store) (e : String),
      harvestStep st sf set resp = (st2, none, .failed e) →
      sf = none) := by
  refine ⟨?_, ?_, ?_⟩
  · intro st sf set resp rd0 hb hst hct
    simp [harvestStep, hb, hst, hct]
  · intro st sf set resp rd0 hb hst hct hcontent
    simp [harvestStep, hb, hst, hct, hcontent]
  · intro st sf set resp st2 e h
    unfold harvestStep at h
    repeat' split at h
    all_goals simp only [Prod.mk.injEq] at h
    all_goals obtain ⟨h1, h2, h3⟩ := h
    all_goals first
      | exact StepOutcome.noConfusion h3
      | exact h2
      | exact Option.noConfusion h2

/-- Witness for the amended C8: the wrong-content-type conjunct at the
concrete Scenario C response, with a pre-existing side file left alone. -/
theorem c8_side_file_amended_witness :
    (buildResumptionData "cs" (readContinuation witnessStore.ledger "cs")
        = .ok { request_number := 1,
                resumption_request :=
                  "verb=ListRecords&metadataPrefix=arXivRaw&set=cs&from=2024-01-09",
                response_date := none })
    ∧ plainTextResp.statusOk = true
    ∧ plainTextResp.contentType ≠ some "text/xml"
    ∧ harvestStep witnessStore (some "stale") "cs" plainTextResp
        = (witnessStore, some "stale", .failed "wrong content type") :=
  ⟨by rfl, by rfl, by decide,
   c8_side_file_amended.1 witnessStore (some "stale") "cs" plainTextResp
     { request_number := 1,
       resumption_request :=
         "verb=ListRecords&metadataPrefix=arXivRaw&set=cs&from=2024-01-09",
       response_date := none }
     (by rfl) (by rfl) (by decide)⟩

/-! ## Claim C4: bulk import -/

theorem mergeDump_get? : ∀ (ov nv : List Version) (i : Nat),
    (mergeDumpVersions ov nv).get? i
      = (nv.get? i).map fun nvv =>
          match ov.get? i with
          | some ovv =>
              if strLt ovv.first_encounter nvv.first_encounter then
                { nvv with first_encounter := ovv.first_encounter }
              else nvv
          | none => nvv := by
  intro ov nv
  induction nv generalizing ov with
  | nil => intro i; cases ov <;> simp [mergeDumpVersions]
  | cons v rest ih =>
      intro i
      cases ov with
      | nil =>
          cases i with
          | zero => simp [mergeDumpVersions]
          | succ j =>
              simp only [mergeDumpVersions, List.get?]
              cases hr : rest.get? j <;> simp
      | cons o orest =>
          cases i with
          | zero => simp [mergeDumpVersions]
          | succ j =>
              simp only [mergeDumpVersions, List.get?]
              exact ih orest j

theorem mergeDump_length : ∀ (ov nv : List Version),
    (mergeDumpVersions ov nv).length = nv.length := by
  intro ov nv
  induction nv generalizing ov with
  | nil => cases ov <;> simp [mergeDumpVersions]
  | cons v rest ih =>
      cases ov with
      | nil => simp [mergeDumpVersions]
      | cons o orest => simp [mergeDumpVersions, ih]

theorem updateLastUpdate_mem_name {lg : List ContinuationRow}
    {set lu : String} {row : ContinuationRow}
    (hmem : row ∈ updateLastUpdate lg set lu) (hname : row.name = set) :
    row.date = some lu := by
  unfold updateLastUpdate at hmem
  rcases List.mem_map.mp hmem with ⟨r1, hr1, hrow⟩
  by_cases h : (r1.name == set) = true
  · rw [← hrow]
    simp [h]
  · have hrow2 : row = r1 := by rw [← hrow]; simp [h]
    rw [hrow2] at hname
    exact absurd (by simp [hname]) h

theorem updateLastUpdate_self_bound {lg : List ContinuationRow}
    {s d : String} :
    ∀ row ∈ updateLastUpdate lg s d, row.name = s →
      ∃ q, row.date = some q ∧ strLe q d = true := by
  intro row hmem hname
  exact ⟨d, updateLastUpdate_mem_name hmem hname, strLe_refl d⟩

theorem updateLastUpdate_keeps_bound {lg : List ContinuationRow}
    {t dt s d : String} (hne : s ≠ t)
    (hinv : ∀ row ∈ lg, row.name = s →
      ∃ q, row.date = some q ∧ strLe q d = true) :
    ∀ row ∈ updateLastUpdate lg t dt, row.name = s →
      ∃ q, row.date = some q ∧ strLe q d = true := by
  intro row hmem hname
  unfold updateLastUpdate at hmem
  rcases List.mem_map.mp hmem with ⟨r1, hr1, hrow⟩
  by_cases ht : (r1.name == t) = true
  · exfalso
    have hrown : row.name = r1.name := by rw [← hrow]; simp [ht]
    have ht2 : r1.name = t := by simpa using ht
    exact hne (by rw [← hname, hrown, ht2])
  · have hrow2 : row = r1 := by rw [← hrow]; simp [ht]
    subst hrow2
    unfold resetLastUpdate at hr1
    rcases List.mem_map.mp hr1 with ⟨r0, hr0, hr1eq⟩
    cases hd : r0.date with
    | none =>
        have hr0eq : row = r0 := by rw [← hr1eq, hd]
        rw [hr0eq] at hname ⊢
        exact hinv r0 hr0 hname
    | some p =>
        rw [hd] at hr1eq
        have hr1eq2 : (if strLt dt p = true then
            ({ name := r0.name, date := some dt, resumption_data := none } :
              ContinuationRow) else r0) = row := hr1eq
        by_cases hlt : strLt dt p = true
        · rw [if_pos hlt] at hr1eq2
          have hrn : row.name = r0.name := by rw [← hr1eq2]
          have hrd : row.date = some dt := by rw [← hr1eq2]
          obtain ⟨q, hq, hqd⟩ := hinv r0 hr0 (by rw [← hrn]; exact hname)
          rw [hd] at hq
          cases hq
          exact ⟨dt, hrd, strLe_of_lt_of_le hlt hqd⟩
        · rw [if_neg hlt] at hr1eq2
          have hr0eq : row = r0 := hr1eq2.symm
          rw [hr0eq] at hname ⊢
          exact hinv r0 hr0 hname

theorem foldl_update_keeps_bound {s d : String} :
    ∀ (rest : List (String × String)) (lg : List ContinuationRow),
    s ∉ rest.map Prod.fst →
    (∀ row ∈ lg, row.name = s →
      ∃ q, row.date = some q ∧ strLe q d = true) →
    ∀ row ∈ rest.foldl (fun lg sd => updateLastUpdate lg sd.1 sd.2) lg,
      row.name = s → ∃ q, row.date = some q ∧ strLe q d = true := by
  intro rest
  induction rest with
  | nil =>
      intro lg _ hinv
      simpa using hinv
  | cons td rest2 ih =>
      intro lg hnot hinv
      rw [List.foldl_cons]
      refine ih _ (fun hc => hnot (by simp [hc])) ?_
      have hne : s ≠ td.1 := fun hc => hnot (by simp [hc])
      exact updateLastUpdate_keeps_bound hne hinv

/-- Claim C4 amended: the import patches each imported record's
`first_encounter` per version index to the minimum of the imported and
stored values (never above the stored value at indices present in both),
but performs no version-count check — the imported version list replaces
the stored one whatever its length; each imported record passing
validation is written over the stored one; the imported ledger entries are
applied through `reset_last_update` and `update_last_update`, whose
comparison direction means a partition named in the dump ends with a
`last_update` that is at most its dump date (possibly lowered below its
pre-import value, as the counterexample shows). -/
theorem c4_import_amended :
    (∀ ov nv, (mergeDumpVersions ov nv).length = nv.length) ∧
    (∀ (ov nv : List Version) (i : Nat),
      (mergeDumpVersions ov nv).get? i
        = (nv.get? i).map fun nvv =>
            match ov.get? i with
            | some ovv =>
                if strLt ovv.first_encounter nvv.first_encounter then
                  { nvv with first_encounter := ovv.first_encounter }
                else nvv
            | none => nvv) ∧
    (∀ (ov nv : List Version) (i : Nat) (o v : Version),
      ov.get? i = some o → (mergeDumpVersions ov nv).get? i = some v →
      strLe v.first_encounter o.first_encounter = true) ∧
    (∀ (arts arts2 : List ArticleMetadata) (a old : ArticleMetadata),
      lookupArticle arts a.id = some old →
      importArticle arts a = .ok arts2 →
      arts2 = writeArticle arts
        { a with versions := mergeDumpVersions old.versions a.versions }) ∧
    (∀ (st : Store) (db : DbDump) (st2 : Store),
      loadDump st db = .ok st2 →
      st2.ledger = db.last_update.foldl
        (fun lg sd => updateLastUpdate lg sd.1 sd.2)
        (db.last_update.foldl (fun lg sd => resetLastUpdate lg sd.2)
          st.ledger)) ∧
    (∀ (lg0 : List ContinuationRow) (L1 L2 : List (String × String))
        (s d : String) (row : ContinuationRow),
      s ∉ L2.map Prod.fst →
      row ∈ (L1 ++ (s, d) :: L2).foldl
        (fun lg sd => updateLastUpdate lg sd.1 sd.2) lg0 →
      row.name = s →
      ∃ q, row.date = some q ∧ strLe q d = true) := by
  refine ⟨mergeDump_length, mergeDump_get?, ?_, ?_, ?_, ?_⟩
  · intro ov nv i o v ho hv
    rw [mergeDump_get?, ho] at hv
    cases hn : nv.get? i with
    | none => rw [hn] at hv; cases hv
    | some nvv =>
        rw [hn] at hv
        simp only [Option.map] at hv
        by_cases hlt : strLt o.first_encounter nvv.first_encounter = true
        · rw [if_pos hlt] at hv
          cases hv
          simp [strLe, strLt, strLtb_irrefl]
        · rw [if_neg hlt] at hv
          cases hv
          simp only [strLe, Bool.not_eq_true'] at hlt ⊢
          simp [hlt]
  · intro arts arts2 a old hlk h
    unfold importArticle at h
    rw [hlk] at h
    split at h
    · rename_i old_article heq
      injection heq with heq2
      subst heq2
      split at h
      · exact Except.noConfusion h
      · injection h with h3
        exact h3.symm
    · rename_i heq
      exact Option.noConfusion heq
  · intro st db st2 h
    unfold loadDump at h
    split at h
    · exact Except.noConfusion h
    · injection h with h2
      rw [← h2]
  · intro lg0 L1 L2 s d row hnot hmem hname
    rw [List.foldl_append, List.foldl_cons] at hmem
    exact foldl_update_keeps_bound L2 _ hnot
      (fun r hr hn => updateLastUpdate_self_bound r hr hn) row hmem hname

/-- A store before a bulk import: one record with two versions, the
partition `cs` harvested up to 2024-05-01. -/
def importStore : Store :=
  { articles := [storedTwoVersions],
    ledger := [{ name := "cs", date := some "2024-05-01",
                 resumption_data := none }] }

/-- A dumped record for the same identifier with only ONE version, first
encountered 2024-01-07. -/
def importedArticle : ArticleMetadata :=
  { id := "2401.00002", submitter := "s",
    versions :=
      [{ number := 1, date := "Fri, 5 Jan 2024 00:00:00 +0000",
         size := "350kb", source_type := none,
         first_encounter := "2024-01-07" }],
    title := "t", authors := "a", categories := ["cs.LO"],
    comments := none, proxy := none, report_no := none,
    acm_classes := none, msc_classes := none, journal_ref := none,
    doi := none, license := none, abstract_ := "b",
    last_change := none, sets := none }

/-- A dump carrying that record and the ledger entry `cs ↦ 2024-01-01`. -/
def importDump : DbDump :=
  { articles := [importedArticle],
    last_update := [("cs", "2024-01-01")] }

/-- The store `db::load` produces from `importStore` and `importDump`. -/
def importResult : Store :=
  { articles :=
      [{ id := "2401.00002", submitter := "s",
         versions :=
           [{ number := 1, date := "Fri, 5 Jan 2024 00:00:00 +0000",
              size := "350kb", source_type := none,
              first_encounter := "2024-01-05" }],
         title := "t", authors := "a", categories := ["cs.LO"],
         comments := none, proxy := none, report_no := none,
         acm_classes := none, msc_classes := none, journal_ref := none,
         doi := none, license := none, abstract_ := "b",
         last_change := none, sets := none }],
    ledger := [{ name := "cs", date := some "2024-01-01",
                 resumption_data := none }] }

/-- Counterexample to C4 as stated: importing a dump whose record has
fewer versions than the stored record SUCCEEDS (no
version-count-must-not-decrease check exists in `db::load`), shrinking
the stored record from two versions to one; and the partition's
`last_update` ends at 2024-01-01, strictly earlier than its pre-import
value 2024-05-01, so the import regresses the low-water mark. -/
theorem c4_import_counterexample :
    loadDump importStore importDump = .ok importResult
    ∧ storedTwoVersions.versions.length = 2
    ∧ (importResult.articles.map fun a => a.versions.length) = [1]
    ∧ importStore.ledger
        = [{ name := "cs", date := some "2024-05-01",
             resumption_data := none }]
    ∧ importResult.ledger
        = [{ name := "cs", date := some "2024-01-01",
             resumption_data := none }]
    ∧ strLt "2024-01-01" "2024-05-01" = true :=
  ⟨by rfl, by rfl, by rfl, by rfl, by rfl, by rfl⟩

/-- Witness for the amended C4 at the concrete import above. -/
theorem c4_import_amended_witness :
    (storedTwoVersions.versions.get? 0
        = some { number := 1, date := "Fri, 5 Jan 2024 00:00:00 +0000",
                 size := "350kb", source_type := none,
                 first_encounter := "2024-01-05" })
    ∧ strLe "2024-01-05" "2024-01-05" = true
    ∧ (lookupArticle [storedTwoVersions] importedArticle.id
        = some storedTwoVersions)
    ∧ (importResult.articles
        = writeArticle [storedTwoVersions]
            { importedArticle with
                versions := mergeDumpVersions storedTwoVersions.versions
                  importedArticle.versions })
    ∧ (importResult.ledger
        = importDump.last_update.foldl
            (fun lg sd => updateLastUpdate lg sd.1 sd.2)
            (importDump.last_update.foldl
              (fun lg sd => resetLastUpdate lg sd.2) importStore.ledger))
    ∧ (∃ q, ({ name := "cs", date := some "2024-01-01",
               resumption_data := none } : ContinuationRow).date = some q
          ∧ strLe q "2024-01-01" = true) := by
  refine ⟨by rfl, ?_, by rfl, ?_, ?_, ?_⟩
  · exact c4_import_amended.2.2.1 storedTwoVersions.versions
      importedArticle.versions 0
      { number := 1, date := "Fri, 5 Jan 2024 00:00:00 +0000",
        size := "350kb", source_type := none,
        first_encounter := "2024-01-05" }
      { number := 1, date := "Fri, 5 Jan 2024 00:00:00 +0000",
        size := "350kb", source_type := none,
        first_encounter := "2024-01-05" }
      (by rfl) (by rfl)
  · exact c4_import_amended.2.2.2.1 [storedTwoVersions]
      importResult.articles importedArticle storedTwoVersions
      (by rfl) (by rfl)
  · exact c4_import_amended.2.2.2.2.1 importStore importDump importResult
      (by rfl)
  · exact c4_import_amended.2.2.2.2.2
      (importDump.last_update.foldl
        (fun lg sd => resetLastUpdate lg sd.2) importStore.ledger)
      [] [] "cs" "2024-01-01"
      { name := "cs", date := some "2024-01-01", resumption_data := none }
      (by simp) (by decide) (by rfl)

end ArxivReader
